import Mathlib

/-!
Verification of the event scheduler (src/main.py) against its design notes.

Shallow embedding conventions.
Every instant handled by the scheduler has minute granularity: all date-time
values are produced by strptime with the pattern "%Y-%m-%d %H:%M" (seconds and
microseconds are zero).  We therefore embed a datetime object used by the
scheduling logic as the natural number of minutes since a fixed epoch;
timedelta(minutes=d) becomes addition of d, datetime comparison is the order
on ℕ, the .date() projection is division by 1440, and datetime.combine with
the minimal time of day is multiplication of the day number by 1440.
Durations are ℕ, matching the data model (positive integer minutes).

The events dict is embedded as an insertion-ordered association list; dict
assignment replaces in place when the key is present and appends otherwise,
exactly like a Python dict.

Parsing of command-line text and the real clock live outside the model: each
operation that calls validate_date takes the already-parsed instant together
with the current instant now, and the strict future check (date_time <= now
raises) is kept.  Persistence (save_events / load_events) is modelled
separately further below over structured date-times, because strftime and
strptime read the calendar fields of the datetime object; the JSON layer is
taken at the level of the object it encodes (json.dump followed by json.load
on a string-keyed dict of records is the standard library contract).
-/

/-- Python str.lower(): every character lower-cased. -/
def pyLower (s : String) : String := String.mk (s.data.map Char.toLower)

/-- The value tuple `(name, category, duration)` stored in the events dict of
src/main.py, duration in minutes. -/
structure EventData where
  name : String
  category : String
  duration : Nat
  deriving DecidableEq, Repr

/-- The `events` dict: insertion-ordered map from start instant (in minutes)
to event data. -/
abbrev Store := List (Nat × EventData)

/-- Python dict assignment `events[k] = v`: replaces in place when the key is
present, otherwise appends at the end. -/
def dictInsert (k : Nat) (v : EventData) (s : Store) : Store :=
  if s.any (fun p => p.1 == k) then s.map (fun p => if p.1 == k then (k, v) else p)
  else s ++ [(k, v)]

/-- Dict lookup `events[k]` (and the membership test `k in events`). -/
def lookupEvent (s : Store) (k : Nat) : Option EventData :=
  (s.find? (fun p => p.1 == k)).map Prod.snd

/-- `is_time_conflict` (src/main.py lines 150-157): scans every stored event;
with `new_end = new_start + new_duration` and `end_time = start_time +
duration`, reports a conflict when `new_start < end_time and new_end >
start_time`.  There is no parameter excluding any event. -/
def is_time_conflict (s : Store) (newStart newDuration : Nat) : Bool :=
  s.any (fun p =>
    decide (newStart < p.1 + p.2.duration ∧ newStart + newDuration > p.1))

/-- Outcome of `add_event`: False is returned on a past/invalid date and on a
conflict, with distinct messages printed; we keep the branch taken. -/
inductive AddResult
  | ok
  | pastDate
  | conflict
  deriving DecidableEq, Repr

/-- `add_event` (src/main.py lines 160-183): validates the start instant
(validate_date with the future check), checks `is_time_conflict`, then stores
`(name, category.lower(), duration)` and persists. -/
def add_event (now : Nat) (name category : String) (start duration : Nat)
    (s : Store) : AddResult × Store :=
  if start ≤ now then (.pastDate, s)
  else if is_time_conflict s start duration then (.conflict, s)
  else (.ok, dictInsert start ⟨name, pyLower category, duration⟩ s)

/-- Outcome of `update_event`, one constructor per return-False branch of
src/main.py lines 189-215 plus success. -/
inductive UpdateResult
  | ok
  | pastDate
  | notFound
  | conflict
  deriving DecidableEq, Repr

/-- `update_event` (src/main.py lines 189-215).  The key is validated with the
future check, then looked up exactly.  Each patch field is kept only when
truthy in Python: None or the empty string (resp. None or 0) falls back to the
current value.  When `new_duration` is truthy, `is_time_conflict(event_datetime,
new_duration)` is consulted over the whole store - including the event being
updated itself - before committing. -/
def update_event (now key : Nat) (newName newCategory : Option String)
    (newDuration : Option Nat) (s : Store) : UpdateResult × Store :=
  if key ≤ now then (.pastDate, s)
  else
    match lookupEvent s key with
    | none => (.notFound, s)
    | some cur =>
      let updatedName := match newName with
        | some n => if n = "" then cur.name else n
        | none => cur.name
      let updatedCategory := match newCategory with
        | some c => if c = "" then cur.category else pyLower c
        | none => cur.category
      let updatedDuration := match newDuration with
        | some d => if d = 0 then cur.duration else d
        | none => cur.duration
      if newDuration.any (fun d => d != 0) &&
          is_time_conflict s key (newDuration.getD 0) then
        (.conflict, s)
      else (.ok, dictInsert key ⟨updatedName, updatedCategory, updatedDuration⟩ s)

/-- Outcome of `delete_event` (src/main.py lines 219-234). -/
inductive DeleteResult
  | ok
  | notFound
  deriving DecidableEq, Repr

/-- `delete_event`: validate_date is called with test_time=0, so no future
check is applied; the event is removed when its exact start is present. -/
def delete_event (key : Nat) (s : Store) : DeleteResult × Store :=
  if s.any (fun p => p.1 == key) then (.ok, s.filter (fun p => !(p.1 == key)))
  else (.notFound, s)

/-- The `.date()` projection on an instant in minutes. -/
def dateOf (t : Nat) : Nat := t / 1440

/-- `datetime.combine(date, datetime.min.time())`: 00:00 of the day of t. -/
def startOfDay (t : Nat) : Nat := dateOf t * 1440

/-- `datetime.combine(date, datetime.max.time().replace(second=0,
microsecond=0))`: 23:59 of the day of t. -/
def endOfDay (t : Nat) : Nat := startOfDay t + 1439

/-- Sorted insertion by start instant; store keys are unique (dict keys), so
Python tuple sorting of `(start_time, details)` pairs orders by start. -/
def insertByStart (p : Nat × EventData) :
    List (Nat × EventData) → List (Nat × EventData)
  | [] => [p]
  | q :: rest => if p.1 ≤ q.1 then p :: q :: rest else q :: insertByStart p rest

/-- `day_events.sort()` of src/main.py line 352. -/
def sortByStart : List (Nat × EventData) → List (Nat × EventData)
  | [] => []
  | p :: rest => insertByStart p (sortByStart rest)

/-- `find_free_times` (src/main.py lines 350-366): filter the store to the
events whose start falls on the same date, sort them, then sweep with
`last_end_time` starting at 00:00, emitting a gap whenever an event starts
strictly after the cursor and advancing the cursor with max; a final gap up to
23:59 is emitted when the cursor stops earlier. -/
def freeStep (acc : List (Nat × Nat) × Nat) (p : Nat × EventData) :
    List (Nat × Nat) × Nat :=
  (if acc.2 < p.1 then acc.1 ++ [(acc.2, p.1)] else acc.1,
   max acc.2 (p.1 + p.2.duration))

def find_free_times (date : Nat) (s : Store) : List (Nat × Nat) :=
  let dayEvents := sortByStart (s.filter (fun p => dateOf p.1 == dateOf date))
  let r := dayEvents.foldl freeStep ([], startOfDay date)
  if r.2 < endOfDay date then r.1 ++ [(r.2, endOfDay date)] else r.1

/-- Python str.capitalize(): first character upper-cased, the rest
lower-cased. -/
def pyCapitalize (s : String) : String :=
  match s.data with
  | [] => ""
  | c :: cs => String.mk (c.toUpper :: cs.map Char.toLower)

/-- `total_time_per_category` (src/main.py lines 287-292): for each of the
three known categories, sums the durations of the events whose stored category
lower-cases to it, keyed by the capitalized category name, in that fixed
order. -/
def total_time_per_category (s : Store) : List (String × Nat) :=
  ["work", "exercise", "leisure"].map (fun c =>
    (pyCapitalize c,
     ((s.filter (fun p => pyLower p.2.category == c)).map
       (fun p => p.2.duration)).sum))

/-- Assoc-list lookup on the category table returned by
`total_time_per_category`. -/
def lookupCat (l : List (String × Nat)) (c : String) : Option Nat :=
  (l.find? (fun p => p.1 == c)).map Prod.snd

/-- The free-window sweep exactly as the spec words it (section 4.4): for each
event in start order, emit a gap when the start is strictly after the cursor
and advance the cursor to the max of itself and the event end; finally emit a
gap up to end-of-day when the cursor is strictly before it. -/
def sweepGaps (dayEnd : Nat) : Nat → List (Nat × EventData) → List (Nat × Nat)
  | cursor, [] => if cursor < dayEnd then [(cursor, dayEnd)] else []
  | cursor, p :: rest =>
      (if cursor < p.1 then [(cursor, p.1)] else []) ++
        sweepGaps dayEnd (max cursor (p.1 + p.2.duration)) rest

/-- `free_windows` as specified in section 4.4 of the design notes: select the
events of the day, sort ascending by start, and sweep from 00:00 to 23:59. -/
def freeWindowsSpec (date : Nat) (s : Store) : List (Nat × Nat) :=
  sweepGaps (endOfDay date) (startOfDay date)
    (sortByStart (s.filter (fun p => dateOf p.1 == dateOf date)))

/-- Two dict entries with non-overlapping half-open intervals. -/
def NoOverlap (p q : Nat × EventData) : Prop :=
  ¬ (p.1 < q.1 + q.2.duration ∧ p.1 + p.2.duration > q.1)

/-- The store invariants of the data model (section 3): unique start instants,
positive durations, and pairwise non-overlapping half-open intervals. -/
def Invariant (s : Store) : Prop :=
  (s.map Prod.fst).Nodup ∧ (∀ p ∈ s, 0 < p.2.duration) ∧ s.Pairwise NoOverlap

instance (s : Store) : Decidable (Invariant s) := by
  unfold Invariant
  have : ∀ p q : Nat × EventData, Decidable (NoOverlap p q) := by
    intro p q; unfold NoOverlap; infer_instance
  exact instDecidableAnd

/-!
Persistence model for save_events / load_events (src/main.py lines 34-49).
The file written by json.dump is taken at the level of the object it encodes:
a string-keyed association of records, each record holding the name, category
and duration fields.  Key strings are modelled as character lists.  strftime
and strptime read the calendar fields of a datetime object, so here - and
only here - the datetime is embedded structurally.
-/

/-- A Python datetime object: its calendar and clock fields.  Microseconds are
omitted; every datetime the program builds has microsecond zero. -/
structure PyDateTime where
  year : Nat
  month : Nat
  day : Nat
  hour : Nat
  minute : Nat
  second : Nat
  deriving DecidableEq, Repr

/-- Gregorian leap-year rule, as used by the datetime module. -/
def isLeapYear (y : Nat) : Bool :=
  (y % 4 == 0 && y % 100 != 0) || y % 400 == 0

/-- Number of days in a month of a given year. -/
def daysInMonth (y m : Nat) : Nat :=
  if m == 2 then (if isLeapYear y then 29 else 28)
  else if m == 4 || m == 6 || m == 9 || m == 11 then 30
  else 31

/-- The ranges the datetime constructor (and strptime) enforces. -/
def PyDateTime.Valid (d : PyDateTime) : Prop :=
  1 ≤ d.year ∧ d.year ≤ 9999 ∧ 1 ≤ d.month ∧ d.month ≤ 12 ∧
    1 ≤ d.day ∧ d.day ≤ daysInMonth d.year d.month ∧
    d.hour < 24 ∧ d.minute < 60 ∧ d.second < 60

instance (d : PyDateTime) : Decidable d.Valid := by
  unfold PyDateTime.Valid; infer_instance

/-- The k low decimal digits of n, most significant first, zero-padded: the
rendering of a field by strftime with a fixed-width numeric directive. -/
def padDigits : Nat → Nat → List Char
  | 0, _ => []
  | k + 1, n => Nat.digitChar (n / 10 ^ k % 10) :: padDigits k n

/-- strftime with format "%Y-%m-%d %H:%M" (src/main.py line 49): the key under
which an event is saved.  Seconds are not rendered. -/
def strftimeKey (d : PyDateTime) : List Char :=
  padDigits 4 d.year ++ ('-' :: (padDigits 2 d.month ++ ('-' :: (padDigits 2 d.day ++
    (' ' :: (padDigits 2 d.hour ++ (':' :: padDigits 2 d.minute)))))))

/-- Read exactly k decimal digits into an accumulator. -/
def parseFixed : Nat → Nat → List Char → Option (Nat × List Char)
  | 0, acc, cs => some (acc, cs)
  | _ + 1, _, [] => none
  | k + 1, acc, c :: cs =>
    if c.isDigit then parseFixed k (acc * 10 + (c.toNat - 48)) cs else none

/-- Consume one expected literal character. -/
def expectChar (x : Char) : List Char → Option (List Char)
  | [] => none
  | c :: cs => if c = x then some cs else none

/-- strptime with format "%Y-%m-%d %H:%M" (src/main.py line 40), specialised
to the canonical zero-padded form strftime emits: reads the five numeric
fields, checks the ranges the datetime constructor enforces, and builds a
datetime with second zero. -/
def strptimeKey (cs : List Char) : Option PyDateTime := do
  let (y, cs) ← parseFixed 4 0 cs
  let cs ← expectChar '-' cs
  let (mo, cs) ← parseFixed 2 0 cs
  let cs ← expectChar '-' cs
  let (d, cs) ← parseFixed 2 0 cs
  let cs ← expectChar ' ' cs
  let (h, cs) ← parseFixed 2 0 cs
  let cs ← expectChar ':' cs
  let (mi, cs) ← parseFixed 2 0 cs
  if cs = [] ∧ 1 ≤ y ∧ 1 ≤ mo ∧ mo ≤ 12 ∧ 1 ≤ d ∧ d ≤ daysInMonth y mo ∧
      h < 24 ∧ mi < 60 then
    some ⟨y, mo, d, h, mi, 0⟩
  else none

/-- The events dict as the persistence layer sees it: keyed by datetime
objects. -/
abbrev PStore := List (PyDateTime × EventData)

/-- The JSON object written to events.json: formatted key mapped to the
record of name, category and duration. -/
abbrev EventsFile := List (List Char × EventData)

/-- `save_events` (src/main.py lines 47-49): dump the dict, each key rendered
with strftime("%Y-%m-%d %H:%M"). -/
def save_events (s : PStore) : EventsFile :=
  s.map (fun p => (strftimeKey p.1, p.2))

/-- `load_events` (src/main.py lines 34-43): parse every key with
strptime("%Y-%m-%d %H:%M") and rebuild the dict; a key that fails to parse
raises ValueError, aborting the load. -/
def load_events (file : EventsFile) : Option PStore :=
  file.mapM (fun p => (strptimeKey p.1).map (fun k => (k, p.2)))

/-! ### Helper lemmas about the dict model -/

theorem lookupEvent_eq_some {s : Store} {k : Nat} {v : EventData}
    (h : lookupEvent s k = some v) : (k, v) ∈ s := by
  unfold lookupEvent at h
  cases hf : s.find? (fun p => p.1 == k) with
  | none => rw [hf] at h; cases h
  | some q =>
    rw [hf] at h
    have hmem := List.mem_of_find?_eq_some hf
    have hkey : q.1 = k := by simpa using List.find?_some hf
    obtain ⟨q1, q2⟩ := q
    cases h
    rw [← hkey]
    exact hmem

theorem any_key_of_lookup {s : Store} {k : Nat} {v : EventData}
    (h : lookupEvent s k = some v) : s.any (fun p => p.1 == k) = true :=
  List.any_eq_true.mpr ⟨(k, v), lookupEvent_eq_some h, by simp⟩

theorem find?_replace (s : Store) (k : Nat) (v : EventData)
    (h : s.any (fun p => p.1 == k) = true) :
    (s.map (fun p => if p.1 == k then (k, v) else p)).find? (fun p => p.1 == k) =
      some (k, v) := by
  induction s with
  | nil => simp at h
  | cons p rest ih =>
    by_cases hp : (p.1 == k) = true
    · simp [hp, List.find?]
    · have hrest : rest.any (fun p => p.1 == k) = true := by
        simpa [List.any_cons, hp] using h
      simp only [List.map_cons, hp, if_false, Bool.false_eq_true]
      rw [List.find?_cons_of_neg _ (by simpa using hp)]
      exact ih hrest

theorem find?_append_key (s : Store) (k : Nat) (v : EventData)
    (h : s.any (fun p => p.1 == k) = false) :
    (s ++ [(k, v)]).find? (fun p => p.1 == k) = some (k, v) := by
  induction s with
  | nil => simp [List.find?]
  | cons p rest ih =>
    have hp : (p.1 == k) = false := by
      by_contra hcon
      simp [List.any_cons, eq_true_of_ne_false hcon] at h
    have hrest : rest.any (fun p => p.1 == k) = false := by
      simpa [List.any_cons, hp] using h
    rw [List.cons_append, List.find?_cons_of_neg _ (by simp [hp])]
    exact ih hrest

theorem lookupEvent_dictInsert_self (s : Store) (k : Nat) (v : EventData) :
    lookupEvent (dictInsert k v s) k = some v := by
  unfold dictInsert lookupEvent
  by_cases h : s.any (fun p => p.1 == k) = true
  · rw [if_pos h, find?_replace s k v h, Option.map_some']
  · rw [if_neg h, find?_append_key s k v
      (by simp only [Bool.not_eq_true] at h; exact h), Option.map_some']

theorem mem_dictInsert_self (s : Store) (k : Nat) (v : EventData) :
    (k, v) ∈ dictInsert k v s :=
  lookupEvent_eq_some (lookupEvent_dictInsert_self s k v)

theorem is_time_conflict_iff (s : Store) (cs cd : Nat) :
    is_time_conflict s cs cd = true ↔
      ∃ q ∈ s, cs < q.1 + q.2.duration ∧ cs + cd > q.1 := by
  unfold is_time_conflict
  simp [List.any_eq_true]

theorem keys_eq_of_nodup {s : Store} (h : (s.map Prod.fst).Nodup)
    {p q : Nat × EventData} (hp : p ∈ s) (hq : q ∈ s) (hk : p.1 = q.1) : p = q := by
  induction s with
  | nil => cases hp
  | cons a rest ih =>
    rw [List.map_cons, List.nodup_cons] at h
    obtain ⟨ha, hrest⟩ := h
    rcases List.mem_cons.mp hp with rfl | hp'
    · rcases List.mem_cons.mp hq with rfl | hq'
      · rfl
      · exact absurd (hk ▸ List.mem_map_of_mem Prod.fst hq') ha
    · rcases List.mem_cons.mp hq with rfl | hq'
      · exact absurd (hk ▸ List.mem_map_of_mem Prod.fst hp') ha
      · exact ih hrest hp' hq'

theorem foldl_freeStep_sweep (dayEnd : Nat) (l : List (Nat × EventData)) :
    ∀ (acc : List (Nat × Nat)) (cursor : Nat),
      (if (l.foldl freeStep (acc, cursor)).2 < dayEnd then
        (l.foldl freeStep (acc, cursor)).1 ++
          [((l.foldl freeStep (acc, cursor)).2, dayEnd)]
      else (l.foldl freeStep (acc, cursor)).1) =
      acc ++ sweepGaps dayEnd cursor l := by
  induction l with
  | nil =>
    intro acc cursor
    by_cases h : cursor < dayEnd <;> simp [sweepGaps, h]
  | cons p rest ih =>
    intro acc cursor
    rw [List.foldl_cons]
    show (if (rest.foldl freeStep (freeStep (acc, cursor) p)).2 < dayEnd then _ else _) = _
    have hstep : freeStep (acc, cursor) p =
        (acc ++ (if cursor < p.1 then [(cursor, p.1)] else []),
         max cursor (p.1 + p.2.duration)) := by
      unfold freeStep
      by_cases h : cursor < p.1 <;> simp [h]
    rw [hstep, ih]
    rw [show sweepGaps dayEnd cursor (p :: rest) =
        (if cursor < p.1 then [(cursor, p.1)] else []) ++
          sweepGaps dayEnd (max cursor (p.1 + p.2.duration)) rest from rfl,
      List.append_assoc]

/-! ### Round-trip of the persisted key format -/

theorem digitChar_isDigit {m : Nat} (h : m < 10) :
    (Nat.digitChar m).isDigit = true := by
  interval_cases m <;> decide

theorem digitChar_toNat {m : Nat} (h : m < 10) :
    (Nat.digitChar m).toNat - 48 = m := by
  interval_cases m <;> decide

theorem parseFixed_padDigits (k : Nat) :
    ∀ (acc n : Nat) (rest : List Char),
      parseFixed k acc (padDigits k n ++ rest) =
        some (acc * 10 ^ k + n % 10 ^ k, rest) := by
  induction k with
  | zero =>
    intro acc n rest
    simp [padDigits, parseFixed, Nat.mod_one]
  | succ k ih =>
    intro acc n rest
    have hd : n / 10 ^ k % 10 < 10 := Nat.mod_lt _ (by norm_num)
    rw [padDigits, List.cons_append, parseFixed, if_pos (digitChar_isDigit hd),
      digitChar_toNat hd, ih]
    have hsplit : n % 10 ^ (k + 1) = n % 10 ^ k + 10 ^ k * (n / 10 ^ k % 10) := by
      rw [pow_succ]; exact Nat.mod_mul
    rw [hsplit, pow_succ]
    ring_nf

theorem daysInMonth_le_31 (y m : Nat) : daysInMonth y m ≤ 31 := by
  unfold daysInMonth
  split
  · split <;> omega
  · split <;> omega

theorem expectChar_self (x : Char) (cs : List Char) :
    expectChar x (x :: cs) = some cs := by
  simp [expectChar]

theorem parseFixed_padDigits_nil (k acc n : Nat) :
    parseFixed k acc (padDigits k n) = some (acc * 10 ^ k + n % 10 ^ k, []) := by
  rw [← List.append_nil (padDigits k n), parseFixed_padDigits]

theorem strptimeKey_strftimeKey (d : PyDateTime) (hv : d.Valid) (hs : d.second = 0) :
    strptimeKey (strftimeKey d) = some d := by
  obtain ⟨y, mo, dy, hh, mi, sec⟩ := d
  obtain ⟨h1, h2, h3, h4, h5, h6, h7, h8, _⟩ := hv
  simp only at hs h1 h2 h3 h4 h5 h6 h7 h8
  subst hs
  have hy : (0 : Nat) * 10 ^ 4 + y % 10 ^ 4 = y := by
    rw [Nat.zero_mul, Nat.zero_add, Nat.mod_eq_of_lt (by omega)]
  have hmo : (0 : Nat) * 10 ^ 2 + mo % 10 ^ 2 = mo := by
    rw [Nat.zero_mul, Nat.zero_add, Nat.mod_eq_of_lt (by omega)]
  have hdy31 := daysInMonth_le_31 y mo
  have hdy : (0 : Nat) * 10 ^ 2 + dy % 10 ^ 2 = dy := by
    rw [Nat.zero_mul, Nat.zero_add, Nat.mod_eq_of_lt (by omega)]
  have hhh : (0 : Nat) * 10 ^ 2 + hh % 10 ^ 2 = hh := by
    rw [Nat.zero_mul, Nat.zero_add, Nat.mod_eq_of_lt (by omega)]
  have hmi : (0 : Nat) * 10 ^ 2 + mi % 10 ^ 2 = mi := by
    rw [Nat.zero_mul, Nat.zero_add, Nat.mod_eq_of_lt (by omega)]
  unfold strftimeKey strptimeKey
  simp only [Option.bind_eq_bind, Option.some_bind, parseFixed_padDigits,
    parseFixed_padDigits_nil, expectChar_self, hy, hmo, hdy, hhh, hmi]
  rw [if_pos]
  exact ⟨trivial, h1, h3, h4, h5, h6, h7, h8⟩

theorem load_events_save_events (s : PStore)
    (hv : ∀ p ∈ s, p.1.Valid ∧ p.1.second = 0) :
    load_events (save_events s) = some s := by
  induction s with
  | nil => rfl
  | cons p rest ih =>
    obtain ⟨hpv, hps⟩ := hv p (List.mem_cons_self p rest)
    have hrest := ih (fun q hq => hv q (List.mem_cons_of_mem p hq))
    unfold load_events save_events at hrest ⊢
    rw [List.map_cons, List.mapM_cons, strptimeKey_strftimeKey p.1 hpv hps]
    simp only [Option.map_some', Option.bind_eq_bind, Option.some_bind, hrest]
    rfl

/-! ### Invariant preservation lemmas -/

theorem invariant_add (now : Nat) (n c : String) (start d : Nat) (s : Store)
    (hinv : Invariant s) (hd : 0 < d) :
    Invariant (add_event now n c start d s).2 := by
  unfold add_event
  by_cases h1 : start ≤ now
  · simpa [h1] using hinv
  · by_cases h2 : is_time_conflict s start d = true
    · simpa [h1, h2] using hinv
    · rw [if_neg h1, if_neg h2]
      obtain ⟨hnd, hpos, hpw⟩ := hinv
      have hnc : ∀ q ∈ s, ¬(start < q.1 + q.2.duration ∧ start + d > q.1) := by
        intro q hq hcon
        exact h2 ((is_time_conflict_iff s start d).mpr ⟨q, hq, hcon⟩)
      have hnotmem : s.any (fun p => p.1 == start) = false := by
        by_contra hA
        rw [Bool.not_eq_false, List.any_eq_true] at hA
        obtain ⟨q, hq, hbq⟩ := hA
        have hk : q.1 = start := by simpa using hbq
        have hdq := hpos q hq
        exact hnc q hq ⟨by omega, by omega⟩
      have hkey : start ∉ s.map Prod.fst := by
        intro hmem
        obtain ⟨q, hq, hk⟩ := List.mem_map.mp hmem
        have hdq := hpos q hq
        exact hnc q hq ⟨by omega, by omega⟩
      unfold dictInsert
      rw [if_neg (by rw [hnotmem]; exact Bool.false_ne_true)]
      refine ⟨?_, ?_, ?_⟩
      · rw [List.map_append, List.nodup_append]
        exact ⟨hnd, List.nodup_singleton start,
          fun a ha hb => by simp at hb; subst hb; exact hkey ha⟩
      · intro q hq
        rcases List.mem_append.mp hq with hq' | hq'
        · exact hpos q hq'
        · simp at hq'; subst hq'; exact hd
      · rw [List.pairwise_append]
        refine ⟨hpw, List.pairwise_singleton _ _, ?_⟩
        intro a ha b hb
        simp at hb
        subst hb
        intro hcon
        obtain ⟨hx, hy⟩ := hcon
        simp only at hx hy
        exact hnc a ha ⟨by omega, by omega⟩

theorem invariant_replace (s : Store) (key : Nat) (cur v : EventData)
    (hinv : Invariant s) (hmem : (key, cur) ∈ s) (hdur : v.duration = cur.duration) :
    Invariant (s.map (fun p => if p.1 == key then (key, v) else p)) := by
  obtain ⟨hnd, hpos, hpw⟩ := hinv
  have hpres : ∀ a ∈ s,
      ((if a.1 == key then (key, v) else a) : Nat × EventData).1 = a.1 ∧
      ((if a.1 == key then (key, v) else a) : Nat × EventData).2.duration =
        a.2.duration := by
    intro a ha
    by_cases h : (a.1 == key) = true
    · have hk : a.1 = key := by simpa using h
      have heq : a = (key, cur) := keys_eq_of_nodup hnd ha hmem hk
      rw [if_pos h, heq, hdur]
      exact ⟨rfl, rfl⟩
    · rw [if_neg h]
      exact ⟨rfl, rfl⟩
  refine ⟨?_, ?_, ?_⟩
  · have hfst : (s.map (fun p => if p.1 == key then (key, v) else p)).map Prod.fst =
        s.map Prod.fst := by
      rw [List.map_map]
      apply List.map_congr_left
      intro a ha
      exact (hpres a ha).1
    rw [hfst]
    exact hnd
  · intro q hq
    obtain ⟨a, ha, rfl⟩ := List.mem_map.mp hq
    rw [(hpres a ha).2]
    exact hpos a ha
  · rw [List.pairwise_map]
    refine hpw.imp_of_mem ?_
    intro a b ha hb hab
    obtain ⟨ha1, ha2⟩ := hpres a ha
    obtain ⟨hb1, hb2⟩ := hpres b hb
    unfold NoOverlap at hab ⊢
    rw [ha1, ha2, hb1, hb2]
    exact hab

theorem invariant_update (now key : Nat) (nn nc : Option String) (nd : Option Nat)
    (s : Store) (hinv : Invariant s) :
    Invariant (update_event now key nn nc nd s).2 := by
  unfold update_event
  by_cases h1 : key ≤ now
  · simpa [h1] using hinv
  · rw [if_neg h1]
    cases hl : lookupEvent s key with
    | none => exact hinv
    | some cur =>
      simp only
      have hmem : (key, cur) ∈ s := lookupEvent_eq_some hl
      have hany : s.any (fun p => p.1 == key) = true := any_key_of_lookup hl
      have hcommit : ∀ nm ct : String,
          Invariant (dictInsert key ⟨nm, ct, cur.duration⟩ s) := by
        intro nm ct
        unfold dictInsert
        rw [if_pos hany]
        exact invariant_replace s key cur _ hinv hmem rfl
      cases nd with
      | none =>
        rw [if_neg (by simp [Option.any])]
        exact hcommit _ _
      | some d =>
        by_cases hd : d = 0
        · subst hd
          rw [if_neg (by simp [Option.any])]
          simpa using hcommit _ _
        · have hcf : is_time_conflict s key ((some d).getD 0) = true := by
            refine (is_time_conflict_iff s key _).mpr ⟨(key, cur), hmem, ?_, ?_⟩
            · have hcd : 0 < cur.duration := by
                have := hinv.2.1 (key, cur) hmem
                simpa using this
              simp only [Option.getD]
              omega
            · simp only [Option.getD]
              omega
          rw [if_pos (by rw [Bool.and_eq_true]
                         exact ⟨by simp [Option.any, hd], hcf⟩)]
          exact hinv

theorem invariant_delete (key : Nat) (s : Store) (hinv : Invariant s) :
    Invariant (delete_event key s).2 := by
  unfold delete_event
  by_cases h : s.any (fun p => p.1 == key) = true
  · rw [if_pos h]
    obtain ⟨hnd, hpos, hpw⟩ := hinv
    refine ⟨?_, ?_, ?_⟩
    · exact hnd.sublist ((s.filter_sublist).map Prod.fst)
    · intro q hq
      exact hpos q (List.mem_of_mem_filter hq)
    · exact hpw.sublist s.filter_sublist
  · rw [if_neg h]
    exact hinv

/-! ### Further helper lemmas -/

theorem find_free_times_eq_spec (date : Nat) (s : Store) :
    find_free_times date s = freeWindowsSpec date s := by
  have h := foldl_freeStep_sweep (endOfDay date)
    (sortByStart (s.filter (fun p => dateOf p.1 == dateOf date))) [] (startOfDay date)
  rw [List.nil_append] at h
  simp only [find_free_times, freeWindowsSpec]
  exact h

theorem update_event_lookup (now key : Nat) (nn nc : Option String)
    (nd : Option Nat) (s : Store) (cur : EventData) (hnow : now < key)
    (hcur : lookupEvent s key = some cur) :
    lookupEvent (update_event now key nn nc nd s).2 key = some cur ∨
    lookupEvent (update_event now key nn nc nd s).2 key = some
      ⟨(match nn with | some n => if n = "" then cur.name else n | none => cur.name),
       (match nc with
        | some c => if c = "" then cur.category else pyLower c
        | none => cur.category),
       (match nd with
        | some d => if d = 0 then cur.duration else d
        | none => cur.duration)⟩ := by
  unfold update_event
  rw [if_neg (by omega), hcur]
  simp only
  by_cases hc : (nd.any (fun d => d != 0) && is_time_conflict s key (nd.getD 0)) = true
  · rw [if_pos hc]
    exact Or.inl hcur
  · rw [if_neg hc]
    exact Or.inr (lookupEvent_dictInsert_self s key _)

/-! ### The claims -/

/-- Claim C1.  The claim states that updating the duration of a stored event
conflict-checks the new interval only against the other events, so that an
update whose new interval overlaps no other event succeeds and commits.  The
code calls is_time_conflict without excluding the event being updated, which
therefore always overlaps its own new interval: here the store holds a single
event at instant 600 (so there is no other event at all), yet updating its
duration to 30 is rejected as a conflict and nothing is committed. -/
theorem c1_duration_update_self_conflict :
    update_event 0 600 none none (some 30)
        [(600, ⟨"Meeting", "work", 60⟩)] =
      (.conflict, [(600, ⟨"Meeting", "work", 60⟩)]) ∧
    ∀ q ∈ ([(600, (⟨"Meeting", "work", 60⟩ : EventData))] : Store), q.1 = 600 := by
  constructor
  · decide
  · decide

/-- Claim C4.  For every day with no stored event starting on that day,
find_free_times returns exactly one window spanning from 00:00 of the day to
23:59 of the day. -/
theorem c4_free_windows_empty_day (date : Nat) (s : Store)
    (h : ∀ p ∈ s, dateOf p.1 ≠ dateOf date) :
    find_free_times date s = [(startOfDay date, endOfDay date)] ∧
    endOfDay date = startOfDay date + 1439 := by
  refine ⟨?_, rfl⟩
  have hfil : s.filter (fun p => dateOf p.1 == dateOf date) = [] := by
    rw [List.filter_eq_nil_iff]
    intro p hp
    simpa using h p hp
  rw [find_free_times_eq_spec]
  unfold freeWindowsSpec
  rw [hfil]
  show sweepGaps (endOfDay date) (startOfDay date) [] = _
  unfold sweepGaps
  rw [if_pos (by unfold endOfDay; omega)]

/-- Witness for C4: a store whose only event is on day 1 leaves day 0
completely free. -/
theorem c4_free_windows_empty_day_witness :
    find_free_times 5 [(2000, ⟨"X", "work", 60⟩)] = [(0, 1439)] := by
  have h := c4_free_windows_empty_day 5 [(2000, ⟨"X", "work", 60⟩)] (by decide)
  rw [h.1]
  decide

/-- The three events of the worked example of the spec, on day 0:
08:00-11:00 (start 480, 180 min), 11:00-12:00 (start 660, 60 min) and
12:00-17:00 (start 720, 300 min). -/
def exampleDayStore : Store :=
  [(480, ⟨"Morning Meeting", "work", 180⟩), (660, ⟨"Lunch", "leisure", 60⟩),
   (720, ⟨"Afternoon Workshop", "work", 300⟩)]

/-- Claim C5.  find_free_times agrees with the reference sweep of the spec on
every day and store (select the day, sort by start, emit a gap when an event
starts strictly after the cursor, advance the cursor with max so it never
moves backward, and emit the final gap before 23:59); on the worked example
it returns exactly the windows 00:00-08:00 and 17:00-23:59. -/
theorem c5_free_windows_match_sweep :
    (∀ date s, find_free_times date s = freeWindowsSpec date s) ∧
    find_free_times 0 exampleDayStore = [(0, 480), (1020, 1439)] :=
  ⟨find_free_times_eq_spec, by decide⟩

/-- Claim C9, counterexample.  The claim states that update fails with
NotFoundError for every start instant at which no event is stored.  With
now = 1000 and the absent key 500, the key is in the past, so the future-date
validation rejects it before the lookup and the outcome is the past-date
error, not NotFoundError. -/
theorem c9_counterexample :
    lookupEvent ([] : Store) 500 = none ∧
    (update_event 1000 500 none none none ([] : Store)).1 =
      UpdateResult.pastDate ∧
    (update_event 1000 500 none none none ([] : Store)).1 ≠
      UpdateResult.notFound := by
  decide

/-- Claim C9, amended.  For a start key that parses to a strictly future
instant, update fails with NotFoundError exactly when no event starts at that
instant, leaving the store unchanged; the lookup is by exact start instant. -/
theorem c9_notfound_on_absent_future_key (now key : Nat) (nn nc : Option String)
    (nd : Option Nat) (s : Store) (hf : now < key)
    (habs : lookupEvent s key = none) :
    update_event now key nn nc nd s = (.notFound, s) := by
  unfold update_event
  rw [if_neg (by omega), habs]

/-- Witness for the amended C9 at a concrete future absent key. -/
theorem c9_notfound_witness :
    update_event 0 500 none none none ([] : Store) = (.notFound, []) :=
  c9_notfound_on_absent_future_key 0 500 none none none [] (by decide) (by decide)

/-- Claim C2.  The conflict detector reports a conflict iff some stored event
half-open interval overlaps the candidate interval (candidate_start <
existing_end and candidate_end > existing_start); consequently, after one of
two overlapping events is inserted, inserting the second fails with the
conflict error and leaves the store unchanged, while two back-to-back events
whose boundary instants merely touch both insert successfully. -/
theorem c2_conflict_detection_halfopen :
    (∀ (s : Store) (cs cd : Nat),
      is_time_conflict s cs cd = true ↔
        ∃ q ∈ s, cs < q.1 + q.2.duration ∧ cs + cd > q.1) ∧
    (∀ (now : Nat) (n1 c1 : String) (s1 d1 : Nat) (n2 c2 : String)
        (s2 d2 : Nat) (st st1 : Store),
      add_event now n1 c1 s1 d1 st = (.ok, st1) → now < s2 →
      s2 < s1 + d1 → s2 + d2 > s1 →
      add_event now n2 c2 s2 d2 st1 = (.conflict, st1)) ∧
    (∀ (now : Nat) (n1 c1 n2 c2 : String) (s1 d1 d2 : Nat), now < s1 →
      (add_event now n1 c1 s1 d1 ([] : Store)).1 = .ok ∧
      (add_event now n2 c2 (s1 + d1) d2
        (add_event now n1 c1 s1 d1 ([] : Store)).2).1 = .ok) := by
  refine ⟨is_time_conflict_iff, ?_, ?_⟩
  · intro now n1 c1 s1 d1 n2 c2 s2 d2 st st1 hadd hnow hov1 hov2
    unfold add_event at hadd
    by_cases h1 : s1 ≤ now
    · rw [if_pos h1] at hadd
      simp at hadd
    · rw [if_neg h1] at hadd
      by_cases h2 : is_time_conflict st s1 d1 = true
      · rw [if_pos h2] at hadd
        simp at hadd
      · rw [if_neg h2] at hadd
        have hst1 : st1 = dictInsert s1 ⟨n1, pyLower c1, d1⟩ st := by
          have := congrArg Prod.snd hadd
          simpa using this.symm
        subst hst1
        have hcf : is_time_conflict (dictInsert s1 ⟨n1, pyLower c1, d1⟩ st) s2 d2 =
            true := by
          refine (is_time_conflict_iff _ s2 d2).mpr
            ⟨(s1, ⟨n1, pyLower c1, d1⟩), mem_dictInsert_self st s1 _, ?_, ?_⟩
          · simpa using hov1
          · simpa using hov2
        unfold add_event
        rw [if_neg (by omega), if_pos hcf]
  · intro now n1 c1 n2 c2 s1 d1 d2 h
    have hfirst : add_event now n1 c1 s1 d1 ([] : Store) =
        (.ok, [(s1, ⟨n1, pyLower c1, d1⟩)]) := by
      unfold add_event
      rw [if_neg (by omega), if_neg (by simp [is_time_conflict])]
      rfl
    refine ⟨by rw [hfirst], ?_⟩
    rw [hfirst]
    unfold add_event
    rw [if_neg (by omega)]
    rw [if_neg (by
      simp only [is_time_conflict, List.any_cons, List.any_nil, Bool.or_false,
        decide_eq_true_eq]
      omega)]

/-- Witness for C2: inserting 100-160 succeeds; a second event 130-190
overlapping it is rejected with the store unchanged, while a second event
starting exactly at its end, 160-190, is accepted. -/
theorem c2_conflict_detection_halfopen_witness :
    add_event 0 "B" "Work" 130 60 [(100, ⟨"A", "work", 60⟩)] =
      (.conflict, [(100, ⟨"A", "work", 60⟩)]) ∧
    (add_event 0 "C" "Work" 160 30
      (add_event 0 "A" "Work" 100 60 ([] : Store)).2).1 = .ok := by
  constructor
  · exact c2_conflict_detection_halfopen.2.1 0 "A" "Work" 100 60 "B" "Work" 130 60
      [] [(100, ⟨"A", "work", 60⟩)] (by decide) (by decide) (by decide) (by decide)
  · exact (c2_conflict_detection_halfopen.2.2 0 "A" "Work" "C" "Work" 100 60 30
      (by decide)).2

/-- Claim C3.  On a store satisfying the invariants (unique start instants,
positive durations, pairwise non-overlapping half-open intervals), insert,
update and delete each preserve the invariants, and an insert whose interval
would overlap a stored event (which covers a duplicate start, since durations
are positive) is rejected with an error and no state change. -/
theorem c3_invariants_preserved (now : Nat) (n c : String) (start d key dkey : Nat)
    (nn nc : Option String) (nd : Option Nat) (s : Store) (hinv : Invariant s) :
    (0 < d → Invariant (add_event now n c start d s).2) ∧
    Invariant (update_event now key nn nc nd s).2 ∧
    Invariant (delete_event dkey s).2 ∧
    ((∃ q ∈ s, start < q.1 + q.2.duration ∧ start + d > q.1) →
      (add_event now n c start d s).1 ≠ .ok ∧ (add_event now n c start d s).2 = s) := by
  refine ⟨fun hd => invariant_add now n c start d s hinv hd,
    invariant_update now key nn nc nd s hinv,
    invariant_delete dkey s hinv, ?_⟩
  intro hov
  unfold add_event
  by_cases h1 : start ≤ now
  · rw [if_pos h1]
    exact ⟨fun hco => AddResult.noConfusion hco, rfl⟩
  · rw [if_neg h1, if_pos ((is_time_conflict_iff s start d).mpr hov)]
    exact ⟨fun hco => AddResult.noConfusion hco, rfl⟩

/-- Witness for C3 on a concrete invariant-satisfying store: adding a
non-overlapping event preserves the invariants, and adding an overlapping one
is rejected without change. -/
theorem c3_invariants_preserved_witness :
    Invariant (add_event 0 "B" "Work" 200 30 [(100, ⟨"A", "work", 60⟩)]).2 ∧
    (add_event 0 "B" "Work" 130 60 [(100, ⟨"A", "work", 60⟩)]).1 ≠ .ok := by
  constructor
  · exact (c3_invariants_preserved 0 "B" "Work" 200 30 0 0 none none none
      [(100, ⟨"A", "work", 60⟩)] (by decide)).1 (by decide)
  · exact ((c3_invariants_preserved 0 "B" "Work" 130 60 0 0 none none none
      [(100, ⟨"A", "work", 60⟩)] (by decide)).2.2.2
      ⟨(100, ⟨"A", "work", 60⟩), by decide, by decide, by decide⟩).1

/-- Claim C6.  Saving a non-empty store and loading the file back reproduces
an equal store: the same start-instant keys and, under each, the same name,
category and duration.  The hypotheses state that every key is a valid
datetime at minute granularity (zero seconds), which is what the program
stores: every key comes from strptime with the "%Y-%m-%d %H:%M" format. -/
theorem c6_save_load_round_trip (s : PStore) (_hne : s ≠ [])
    (hv : ∀ p ∈ s, p.1.Valid ∧ p.1.second = 0) :
    load_events (save_events s) = some s :=
  load_events_save_events s hv

/-- Witness for C6 on a concrete two-event store. -/
theorem c6_save_load_round_trip_witness :
    load_events (save_events
      [(⟨2024, 9, 15, 11, 0, 0⟩, ⟨"Sprint Review", "Work", 60⟩),
       (⟨2024, 9, 15, 17, 0, 0⟩, ⟨"Park Picnic", "Leisure", 120⟩)]) =
      some [(⟨2024, 9, 15, 11, 0, 0⟩, ⟨"Sprint Review", "Work", 60⟩),
       (⟨2024, 9, 15, 17, 0, 0⟩, ⟨"Park Picnic", "Leisure", 120⟩)] :=
  c6_save_load_round_trip _ (by decide) (by decide)

theorem sum_filter_eq_sum_ite (s : Store) (c : String) :
    ((s.filter (fun p => pyLower p.2.category == c)).map
      (fun p => p.2.duration)).sum =
      (s.map (fun p => if pyLower p.2.category = c then p.2.duration else 0)).sum := by
  induction s with
  | nil => rfl
  | cons p rest ih =>
    by_cases h : pyLower p.2.category = c
    · simp [List.filter_cons, h, ih]
    · simp [List.filter_cons, h, ih]

/-- Claim C7.  total_time_per_category always returns a table whose keys are
exactly the three known categories Work, Exercise and Leisure, in which each
category is mapped to the sum of the durations of the stored events whose
category matches it case-insensitively; on the empty store every known
category is present with value zero. -/
theorem c7_total_duration_per_category (s : Store) :
    (total_time_per_category s).map Prod.fst = ["Work", "Exercise", "Leisure"] ∧
    lookupCat (total_time_per_category s) "Work" =
      some ((s.map (fun p =>
        if pyLower p.2.category = "work" then p.2.duration else 0)).sum) ∧
    lookupCat (total_time_per_category s) "Exercise" =
      some ((s.map (fun p =>
        if pyLower p.2.category = "exercise" then p.2.duration else 0)).sum) ∧
    lookupCat (total_time_per_category s) "Leisure" =
      some ((s.map (fun p =>
        if pyLower p.2.category = "leisure" then p.2.duration else 0)).sum) ∧
    total_time_per_category ([] : Store) =
      [("Work", 0), ("Exercise", 0), ("Leisure", 0)] := by
  have e1 : total_time_per_category s =
      [("Work", ((s.filter (fun p => pyLower p.2.category == "work")).map
          (fun p => p.2.duration)).sum),
       ("Exercise", ((s.filter (fun p => pyLower p.2.category == "exercise")).map
          (fun p => p.2.duration)).sum),
       ("Leisure", ((s.filter (fun p => pyLower p.2.category == "leisure")).map
          (fun p => p.2.duration)).sum)] := by
    unfold total_time_per_category
    rw [List.map_cons, List.map_cons, List.map_cons, List.map_nil]
    rw [show pyCapitalize "work" = "Work" from by decide,
      show pyCapitalize "exercise" = "Exercise" from by decide,
      show pyCapitalize "leisure" = "Leisure" from by decide]
  refine ⟨by rw [e1]; rfl, ?_, ?_, ?_, by decide⟩
  · rw [e1, sum_filter_eq_sum_ite s "work"]
    rfl
  · rw [e1, sum_filter_eq_sum_ite s "exercise"]
    rfl
  · rw [e1, sum_filter_eq_sum_ite s "leisure"]
    rfl

/-- Claim C8.  Updating the duration of a stored event to a value whose
half-open interval overlaps another stored event fails with the conflict
error, and the store returned is exactly the store before the call (nothing
is committed, and save_events is only reached on success). -/
theorem c8_update_overlap_rejected_unchanged (now key d : Nat)
    (nn nc : Option String) (s : Store) (cur : EventData) (q : Nat × EventData)
    (hnow : now < key) (hcur : lookupEvent s key = some cur)
    (hq : q ∈ s) (_hother : q.1 ≠ key) (hd : 0 < d)
    (hov1 : key < q.1 + q.2.duration) (hov2 : key + d > q.1) :
    update_event now key nn nc (some d) s = (.conflict, s) := by
  have hcf : is_time_conflict s key ((some d).getD 0) = true :=
    (is_time_conflict_iff s key _).mpr ⟨q, hq, by simpa using hov1, by simpa using hov2⟩
  have hco : ((some d).any (fun x => x != 0) &&
      is_time_conflict s key ((some d).getD 0)) = true := by
    rw [Bool.and_eq_true]
    refine ⟨?_, hcf⟩
    simp only [Option.any, bne_iff_ne, ne_eq]
    omega
  unfold update_event
  rw [if_neg (by omega), hcur]
  simp only
  rw [if_pos hco]

/-- Witness for C8: the store holds events 100-160 and 300-360; stretching the
first one to 250 minutes would cover the second, and is rejected with the
store unchanged. -/
theorem c8_update_overlap_rejected_unchanged_witness :
    update_event 0 100 none none (some 250)
        [(100, ⟨"A", "work", 60⟩), (300, ⟨"B", "work", 60⟩)] =
      (.conflict, [(100, ⟨"A", "work", 60⟩), (300, ⟨"B", "work", 60⟩)]) :=
  c8_update_overlap_rejected_unchanged 0 100 250 none none
    [(100, ⟨"A", "work", 60⟩), (300, ⟨"B", "work", 60⟩)] ⟨"A", "work", 60⟩
    (300, ⟨"B", "work", 60⟩) (by decide) (by decide) (by decide) (by decide)
    (by decide) (by decide) (by decide)

/-- Claim C10.  In update_event a falsy patch field is treated as omitted:
passing the empty string as the new name, or zero as the new duration, keeps
the prior value of that field; consequently an update can never turn a
non-empty name into the empty string nor a positive duration into zero. -/
theorem c10_falsy_patch_fields (now key : Nat) (s : Store) (cur : EventData)
    (hnow : now < key) (hcur : lookupEvent s key = some cur) :
    (∀ nc nd, (lookupEvent (update_event now key (some "") nc nd s).2 key).map
        EventData.name = some cur.name) ∧
    (∀ nn nc, (lookupEvent (update_event now key nn nc (some 0) s).2 key).map
        EventData.duration = some cur.duration) ∧
    (∀ nn nc nd e, lookupEvent (update_event now key nn nc nd s).2 key = some e →
      (cur.name ≠ "" → e.name ≠ "") ∧ (cur.duration ≠ 0 → e.duration ≠ 0)) := by
  refine ⟨?_, ?_, ?_⟩
  · intro nc nd
    rcases update_event_lookup now key (some "") nc nd s cur hnow hcur with h | h <;>
      rw [h] <;> simp
  · intro nn nc
    rcases update_event_lookup now key nn nc (some 0) s cur hnow hcur with h | h <;>
      rw [h] <;> simp
  · intro nn nc nd e he
    rcases update_event_lookup now key nn nc nd s cur hnow hcur with h | h
    · rw [he] at h
      injection h with h
      subst h
      exact ⟨fun hn => hn, fun hd => hd⟩
    · rw [he] at h
      injection h with h
      subst h
      clear he
      constructor
      · intro hcn
        show (match nn with
          | some n => if n = "" then cur.name else n
          | none => cur.name) ≠ ""
        cases nn with
        | none => exact hcn
        | some n =>
          show (if n = "" then cur.name else n) ≠ ""
          by_cases hn : n = ""
          · rw [if_pos hn]
            exact hcn
          · rw [if_neg hn]
            exact hn
      · intro hcd
        show (match nd with
          | some d => if d = 0 then cur.duration else d
          | none => cur.duration) ≠ 0
        cases nd with
        | none => exact hcd
        | some d =>
          show (if d = 0 then cur.duration else d) ≠ 0
          by_cases hd : d = 0
          · rw [if_pos hd]
            exact hcd
          · rw [if_neg hd]
            exact hd

/-- Witness for C10: updating with an empty name and a zero duration leaves
both fields unchanged on a concrete store. -/
theorem c10_falsy_patch_fields_witness :
    (lookupEvent (update_event 0 600 (some "") none (some 0)
        [(600, ⟨"Meeting", "work", 60⟩)]).2 600).map EventData.name =
      some "Meeting" ∧
    (lookupEvent (update_event 0 600 none none (some 0)
        [(600, ⟨"Meeting", "work", 60⟩)]).2 600).map EventData.duration =
      some 60 :=
  ⟨(c10_falsy_patch_fields 0 600 [(600, ⟨"Meeting", "work", 60⟩)]
      ⟨"Meeting", "work", 60⟩ (by decide) (by decide)).1 none (some 0),
   (c10_falsy_patch_fields 0 600 [(600, ⟨"Meeting", "work", 60⟩)]
      ⟨"Meeting", "work", 60⟩ (by decide) (by decide)).2.1 none none⟩
